import Mathlib

/-!
Verification of the tempo-map data model and the ensemble reconciliation
algorithm of the bpm-analyzer repository
(`bpm_analyzer/core/tempo_map.py` and `bpm_analyzer/algorithms/ensemble.py`).

Modelling conventions:
* Python floats are modelled as rationals (`ℚ`), so all arithmetic is exact.
* numpy arrays are modelled as lists; `np.diff` becomes `npDiff`,
  `np.argmin` becomes `argminIdx` (first index attaining the minimum).
* Python's stable `sorted` / `list.sort` is modelled by `List.insertionSort`,
  which is also a stable sort.
* `raise ValueError(...)` becomes `Except.error`; functions that can raise
  return `Except String _` and thread failures exactly where the Python
  code would raise.
-/

attribute [local semireducible] Rat.mul Rat.add Rat.sub Rat.inv Rat.ofScientific

/-- A single beat annotation (`Beat` dataclass in `tempo_map.py`). -/
structure Beat where
  time : ℚ
  position : ℤ
  confidence : ℚ
deriving Repr, DecidableEq, Inhabited

/-- The conjunction of the range conditions checked by `Beat.__post_init__`. -/
def Beat.valid (b : Beat) : Prop :=
  0 ≤ b.confidence ∧ b.confidence ≤ 1 ∧ 0 ≤ b.time ∧ 1 ≤ b.position

instance (b : Beat) : Decidable b.valid :=
  inferInstanceAs (Decidable (_ ∧ _ ∧ _ ∧ _))

/-- Construction of a `Beat`, with the validation performed by
`Beat.__post_init__` (checks in source order: confidence, time, position). -/
def mkBeat (time : ℚ) (position : ℤ) (confidence : ℚ) : Except String Beat :=
  if ¬ (0 ≤ confidence ∧ confidence ≤ 1) then
    Except.error "Confidence must be between 0 and 1"
  else if time < 0 then
    Except.error "Beat time cannot be negative"
  else if position < 1 then
    Except.error "Beat position must be >= 1"
  else
    Except.ok ⟨time, position, confidence⟩

/-- Container for tempo and beat information (`TempoMap` dataclass). -/
structure TempoMap where
  beats : List Beat
  average_bpm : ℚ
  tempo_curve : Option (List ℚ)
  tempo_confidence : Option (List ℚ)
  downbeats : Option (List ℚ)
  time_signature : Option (ℤ × ℤ)
deriving Repr, DecidableEq

instance {e a : Type} [DecidableEq e] [DecidableEq a] : DecidableEq (Except e a) :=
  fun x y =>
    match x, y with
    | Except.error e1, Except.error e2 =>
        if h : e1 = e2 then isTrue (by rw [h])
        else isFalse fun hh => h (Except.error.inj hh)
    | Except.error _, Except.ok _ => isFalse fun hh => Except.noConfusion hh
    | Except.ok _, Except.error _ => isFalse fun hh => Except.noConfusion hh
    | Except.ok a1, Except.ok a2 =>
        if h : a1 = a2 then isTrue (by rw [h])
        else isFalse fun hh => h (Except.ok.inj hh)

/-- Ordering of beats by ascending time, the sort key used by
`TempoMap.__post_init__` and `merge_with` (`key=lambda b: b.time`). -/
def beatTimeLe (a b : Beat) : Prop := a.time ≤ b.time

instance : DecidableRel beatTimeLe :=
  fun a b => inferInstanceAs (Decidable (a.time ≤ b.time))

instance : IsTotal Beat beatTimeLe := ⟨fun a b => le_total a.time b.time⟩

instance : IsTrans Beat beatTimeLe := ⟨fun _ _ _ h1 h2 => le_trans h1 h2⟩

/-- Construction of a `TempoMap`, with the validation and the normalizing
sort performed by `TempoMap.__post_init__`. -/
def mkTempoMap (beats : List Beat) (average_bpm : ℚ)
    (tempo_curve tempo_confidence : Option (List ℚ))
    (downbeats : Option (List ℚ)) (time_signature : Option (ℤ × ℤ)) :
    Except String TempoMap :=
  if beats.isEmpty then
    Except.error "TempoMap must contain at least one beat"
  else
    let sorted_beats := List.insertionSort beatTimeLe beats
    match tempo_curve, tempo_confidence with
    | some c, some cf =>
        if c.length ≠ cf.length then
          Except.error "tempo_curve and tempo_confidence must have same length"
        else
          Except.ok ⟨sorted_beats, average_bpm, tempo_curve, tempo_confidence,
            downbeats, time_signature⟩
    | _, _ =>
        Except.ok ⟨sorted_beats, average_bpm, tempo_curve, tempo_confidence,
          downbeats, time_signature⟩

/-- Compatibility of the optional `tempo_curve`/`tempo_confidence` pair
(the length check of `TempoMap.__post_init__`), as a Bool. -/
def curveLenOk (tempo_curve tempo_confidence : Option (List ℚ)) : Bool :=
  match tempo_curve, tempo_confidence with
  | some c, some cf => c.length == cf.length
  | _, _ => true

/-- A well-formed `TempoMap` value: what actually comes out of
`mkTempoMap` (non-empty beat list, every beat in range, beats sorted by
time, compatible curve lengths). -/
def TempoMap.valid (tm : TempoMap) : Prop :=
  tm.beats ≠ [] ∧ (∀ b ∈ tm.beats, b.valid) ∧
    tm.beats.Pairwise beatTimeLe ∧
    curveLenOk tm.tempo_curve tm.tempo_confidence = true

instance (tm : TempoMap) : Decidable tm.valid :=
  inferInstanceAs (Decidable (_ ∧ _ ∧ _ ∧ _))

/-- Model of `np.diff`: consecutive differences of a list. -/
def npDiff : List ℚ → List ℚ
  | a :: b :: rest => (b - a) :: npDiff (b :: rest)
  | _ => []

/-- Model of `TempoMap.filter_by_confidence`. -/
def TempoMap.filter_by_confidence (tm : TempoMap) (min_confidence : ℚ) :
    Except String TempoMap :=
  let filtered_beats := tm.beats.filter fun b => decide (min_confidence ≤ b.confidence)
  if filtered_beats.isEmpty then
    Except.error "No beats with confidence >= threshold"
  else
    let filtered_bpm :=
      if 1 < filtered_beats.length then
        let intervals := npDiff (filtered_beats.map Beat.time)
        (intervals.map fun i => 60 / i).sum / (intervals.length : ℚ)
      else tm.average_bpm
    mkTempoMap filtered_beats filtered_bpm tm.tempo_curve tm.tempo_confidence
      tm.downbeats tm.time_signature

/-- Model of Python's built-in `round` on an exact rational value:
round half to even. -/
def pyRound (x : ℚ) : ℤ :=
  if x - ⌊x⌋ < 1/2 then ⌊x⌋
  else if 1/2 < x - ⌊x⌋ then ⌊x⌋ + 1
  else if ⌊x⌋ % 2 = 0 then ⌊x⌋ else ⌊x⌋ + 1

/-- The beat-construction loop of `TempoMap.quantize_to_grid`. -/
def quantizeLoop (grid_size : ℚ) : List Beat → Except String (List Beat)
  | [] => Except.ok []
  | b :: rest =>
      match mkBeat (((pyRound (b.time / grid_size) : ℤ) : ℚ) * grid_size)
          b.position b.confidence with
      | Except.error e => Except.error e
      | Except.ok nb =>
          match quantizeLoop grid_size rest with
          | Except.error e => Except.error e
          | Except.ok bs => Except.ok (nb :: bs)

/-- Model of `TempoMap.quantize_to_grid`. -/
def TempoMap.quantize_to_grid (tm : TempoMap) (grid_size : ℚ) :
    Except String TempoMap :=
  match quantizeLoop grid_size tm.beats with
  | Except.error e => Except.error e
  | Except.ok quantized_beats =>
      mkTempoMap quantized_beats tm.average_bpm tm.tempo_curve
        tm.tempo_confidence tm.downbeats tm.time_signature

/-- Model of `np.argmin`: the first index attaining the minimum of the list
(0 on the empty list, which `merge_with` never hits because `TempoMap`
beat lists are non-empty). -/
def argminIdx : List ℚ → ℕ
  | [] => 0
  | [_] => 0
  | x :: y :: ys =>
      let j := argminIdx (y :: ys)
      if x ≤ (y :: ys).getD j 0 then 0 else j + 1

/-- The closest-match computation of the `merge_with` main loop: the
distances `|b.time - beat.time|` over all of `other.beats`, their argmin
`closest_idx`, and the 50 ms window test `distances[closest_idx] < 0.05`.
Returns the matched index, or `none` when the minimum distance is not
within the window. -/
def matchIdx (otherBeats : List Beat) (b : Beat) : Option ℕ :=
  let distances := otherBeats.map fun ob => |ob.time - b.time|
  let closest_idx := argminIdx distances
  if distances.getD closest_idx 0 < 1/20 then some closest_idx else none

/-- The main loop of `TempoMap.merge_with`: processes each primary beat,
returning the produced beats together with the accumulated set of matched
`other`-beat indices (`used_other`). -/
def mergeMainLoop (otherBeats : List Beat) (weight : ℚ) :
    List Beat → Except String (List Beat × List ℕ)
  | [] => Except.ok ([], [])
  | b :: rest =>
      match matchIdx otherBeats b with
      | some closest_idx =>
          let other_beat := otherBeats.getD closest_idx default
          match mkBeat (b.time * weight + other_beat.time * (1 - weight)) b.position
              (b.confidence * weight + other_beat.confidence * (1 - weight)) with
          | Except.error e => Except.error e
          | Except.ok nb =>
              match mergeMainLoop otherBeats weight rest with
              | Except.error e => Except.error e
              | Except.ok (bs, used) => Except.ok (nb :: bs, closest_idx :: used)
      | none =>
          match mkBeat b.time b.position (b.confidence * weight) with
          | Except.error e => Except.error e
          | Except.ok nb =>
              match mergeMainLoop otherBeats weight rest with
              | Except.error e => Except.error e
              | Except.ok (bs, used) => Except.ok (nb :: bs, used)

/-- Model of Python's `enumerate` starting at index `i`. -/
def enumFrom (i : ℕ) : List Beat → List (ℕ × Beat)
  | [] => []
  | b :: rest => (i, b) :: enumFrom (i + 1) rest

/-- The second loop of `TempoMap.merge_with`: appends every `other` beat
whose index was not consumed, with attenuated confidence. -/
def leftoverLoop (used : List ℕ) (weight : ℚ) :
    List (ℕ × Beat) → Except String (List Beat)
  | [] => Except.ok []
  | (i, b) :: rest =>
      if i ∈ used then leftoverLoop used weight rest
      else
        match mkBeat b.time b.position (b.confidence * (1 - weight)) with
        | Except.error e => Except.error e
        | Except.ok nb =>
            match leftoverLoop used weight rest with
            | Except.error e => Except.error e
            | Except.ok bs => Except.ok (nb :: bs)

/-- Model of `TempoMap.merge_with`. -/
def TempoMap.merge_with (tm other : TempoMap) (weight : ℚ) :
    Except String TempoMap :=
  if ¬ (0 ≤ weight ∧ weight ≤ 1) then
    Except.error "Weight must be between 0 and 1"
  else
    match mergeMainLoop other.beats weight tm.beats with
    | Except.error e => Except.error e
    | Except.ok (mainBeats, used) =>
        match leftoverLoop used weight (enumFrom 0 other.beats) with
        | Except.error e => Except.error e
        | Except.ok extraBeats =>
            let merged_beats := List.insertionSort beatTimeLe (mainBeats ++ extraBeats)
            let merged_bpm := tm.average_bpm * weight + other.average_bpm * (1 - weight)
            mkTempoMap merged_beats merged_bpm none none none tm.time_signature

/-- Outcome of invoking one configured estimator on the audio: either its
`TempoMap` or the failure it raised (the exception caught by
`EnsembleDetector.detect`). -/
inductive DetectorOutcome where
  | success (tempo_map : TempoMap)
  | failure (reason : String)
deriving Repr, DecidableEq

/-- Whether the estimator invocation succeeded. -/
def DetectorOutcome.isSuccess : DetectorOutcome → Bool
  | DetectorOutcome.success _ => true
  | DetectorOutcome.failure _ => false

/-- Exception kinds raised by `EnsembleDetector.detect`, mirroring the
Python exception classes involved (`ValueError`, `RuntimeError`, and
`AlgorithmError` from `core/exceptions.py`). -/
inductive EnsembleError where
  | valueError (msg : String)
  | runtimeError (msg : String)
  | algorithmError (msg : String)
deriving Repr, DecidableEq

/-- Descending-by-weight order used by `_combine_results`
(`results.sort(key=lambda x: x[1], reverse=True)`). -/
def weightDesc (a b : TempoMap × ℚ) : Prop := b.2 ≤ a.2

instance : DecidableRel weightDesc :=
  fun a b => inferInstanceAs (Decidable (b.2 ≤ a.2))

instance : IsTotal (TempoMap × ℚ) weightDesc := ⟨fun a b => le_total b.2 a.2⟩

instance : IsTrans (TempoMap × ℚ) weightDesc := ⟨fun _ _ _ h1 h2 => le_trans h2 h1⟩

/-- The merge fold of `EnsembleDetector._combine_results`. -/
def combineFold (combined : TempoMap) (total_weight : ℚ) :
    List (TempoMap × ℚ) → Except String TempoMap
  | [] => Except.ok combined
  | (tempo_map, weight) :: rest =>
      let rel_weight := weight / (total_weight + weight)
      match combined.merge_with tempo_map (1 - rel_weight) with
      | Except.error e => Except.error e
      | Except.ok c => combineFold c (total_weight + weight) rest

/-- Model of `EnsembleDetector._combine_results` (callers guarantee a
non-empty result list; the impossible empty case mirrors the IndexError
Python would raise). -/
def combine_results (results : List (TempoMap × ℚ)) : Except String TempoMap :=
  if results.length = 1 then
    match results with
    | (m, _) :: _ => Except.ok m
    | [] => Except.error "list index out of range"
  else
    match List.insertionSort weightDesc results with
    | [] => Except.error "list index out of range"
    | (m0, w0) :: rest => combineFold m0 w0 rest

/-- Model of `EnsembleDetector.detect`, abstracted over the outcome and
trust weight of each configured detector: non-empty check, collection of
the successful `(TempoMap, weight)` pairs (failures are skipped), the
all-failed check, then `_combine_results`. -/
def ensembleDetect (detectors : List (DetectorOutcome × ℚ)) :
    Except EnsembleError TempoMap :=
  if detectors.isEmpty then
    Except.error (EnsembleError.valueError "No detectors configured for ensemble")
  else
    let results := detectors.filterMap fun d =>
      match d.1 with
      | DetectorOutcome.success tm => some (tm, d.2)
      | DetectorOutcome.failure _ => none
    if results.isEmpty then
      Except.error (EnsembleError.runtimeError "All detectors failed")
    else
      (combine_results results).mapError EnsembleError.valueError

/-- Modelled from the spec: the reduction step of §4.4 as the spec words
it ("sort successful (TempoMap, weight) pairs by weight descending ...
fold left-to-right: start with the highest-weight map as the accumulator
and running total weight = its weight; for each subsequent (map, weight)
pair, compute relativeWeight = weight / (runningTotal + weight), merge the
accumulator with this map using mergeWith(accumulator, map,
weight = 1 − relativeWeight), then add weight to runningTotal").
Used only as the comparison point for the refinement claim about
`_combine_results`. `specFoldStep` is the body of that fold. -/
def specFoldStep (acc : Except String (TempoMap × ℚ)) (p : TempoMap × ℚ) :
    Except String (TempoMap × ℚ) :=
  match acc with
  | Except.error e => Except.error e
  | Except.ok (c, runningTotal) =>
      let relativeWeight := p.2 / (runningTotal + p.2)
      match c.merge_with p.1 (1 - relativeWeight) with
      | Except.error e => Except.error e
      | Except.ok c2 => Except.ok (c2, runningTotal + p.2)

def combineResultsSpec (results : List (TempoMap × ℚ)) : Except String TempoMap :=
  match List.insertionSort weightDesc results with
  | [] => Except.error "list index out of range"
  | (m0, w0) :: rest =>
      (rest.foldl specFoldStep (Except.ok (m0, w0))).map Prod.fst

/-- The minimum-distance condition of `merge_with` in spec form: the beat
of `otherBeats` closest in time to `b` (first occurrence on ties, as
`np.argmin` returns). -/
def closestBeat (otherBeats : List Beat) (b : Beat) : Beat :=
  otherBeats.getD (argminIdx (otherBeats.map fun ob => |ob.time - b.time|)) default

/-- Pure form of the per-primary-beat step of `merge_with`: blend with the
closest match inside the window, else attenuate. -/
def blendBeat (otherBeats : List Beat) (weight : ℚ) (b : Beat) : Beat :=
  match matchIdx otherBeats b with
  | some j =>
      let ob := otherBeats.getD j default
      ⟨b.time * weight + ob.time * (1 - weight), b.position,
        b.confidence * weight + ob.confidence * (1 - weight)⟩
  | none => ⟨b.time, b.position, b.confidence * weight⟩

/-- The set (as a list) of `other`-beat indices consumed by the main loop
of `merge_with`. -/
def usedIdxs (primaryBeats otherBeats : List Beat) : List ℕ :=
  primaryBeats.filterMap (matchIdx otherBeats)

/-- Pure form of the leftover pass of `merge_with`: the `other` beats at
unconsumed indices, confidence attenuated by `1 - weight`. -/
def leftoverBeatsPure (otherBeats : List Beat) (used : List ℕ) (weight : ℚ) :
    List Beat :=
  ((enumFrom 0 otherBeats).filter fun p => decide (p.1 ∉ used)).map fun p =>
    ⟨p.2.time, p.2.position, p.2.confidence * (1 - weight)⟩

lemma mkBeat_ok {t : ℚ} {p : ℤ} {c : ℚ} (h1 : 0 ≤ c) (h2 : c ≤ 1)
    (h3 : 0 ≤ t) (h4 : 1 ≤ p) : mkBeat t p c = Except.ok ⟨t, p, c⟩ := by
  unfold mkBeat
  rw [if_neg (not_not_intro ⟨h1, h2⟩), if_neg (not_lt.mpr h3), if_neg (not_lt.mpr h4)]

lemma mkBeat_valid {t : ℚ} {p : ℤ} {c : ℚ} {b : Beat}
    (h : mkBeat t p c = Except.ok b) : b.valid ∧ b = ⟨t, p, c⟩ := by
  unfold mkBeat at h
  split_ifs at h with h1 h2 h3
  rcases Except.ok.inj h with rfl
  exact ⟨⟨h1.1, h1.2, not_lt.mp h2, not_lt.mp h3⟩, rfl⟩

lemma mkTempoMap_ok {beats : List Beat} {avg : ℚ}
    {tc tcf : Option (List ℚ)} {db : Option (List ℚ)} {ts : Option (ℤ × ℤ)}
    (hne : beats ≠ []) (hc : curveLenOk tc tcf = true) :
    mkTempoMap beats avg tc tcf db ts =
      Except.ok ⟨List.insertionSort beatTimeLe beats, avg, tc, tcf, db, ts⟩ := by
  have hbe : ¬ beats.isEmpty = true := fun hh => hne (List.isEmpty_iff.mp hh)
  unfold mkTempoMap
  rw [if_neg hbe]
  rcases tc with _ | c <;> rcases tcf with _ | cf
  · rfl
  · rfl
  · rfl
  · simp only [curveLenOk, beq_iff_eq] at hc
    show (if c.length ≠ cf.length then _ else _) = _
    rw [if_neg (not_not_intro hc)]

lemma mkTempoMap_beats {beats : List Beat} {avg : ℚ}
    {tc tcf : Option (List ℚ)} {db : Option (List ℚ)} {ts : Option (ℤ × ℤ)}
    {m : TempoMap} (h : mkTempoMap beats avg tc tcf db ts = Except.ok m) :
    m.beats = List.insertionSort beatTimeLe beats := by
  unfold mkTempoMap at h
  by_cases hbe : beats.isEmpty
  · rw [if_pos hbe] at h
    exact absurd h (by simp)
  · rw [if_neg hbe] at h
    rcases tc with _ | c <;> rcases tcf with _ | cf
    · rcases Except.ok.inj h with rfl
      rfl
    · rcases Except.ok.inj h with rfl
      rfl
    · rcases Except.ok.inj h with rfl
      rfl
    · replace h : (if c.length ≠ cf.length then Except.error
          "tempo_curve and tempo_confidence must have same length" else
          Except.ok (⟨List.insertionSort beatTimeLe beats, avg, some c, some cf,
            db, ts⟩ : TempoMap)) = Except.ok m := h
      split_ifs at h
      rcases Except.ok.inj h with rfl
      rfl

lemma mkTempoMap_sorted {beats : List Beat} {avg : ℚ}
    {tc tcf : Option (List ℚ)} {db : Option (List ℚ)} {ts : Option (ℤ × ℤ)}
    {m : TempoMap} (h : mkTempoMap beats avg tc tcf db ts = Except.ok m) :
    m.beats.Pairwise beatTimeLe := by
  rw [mkTempoMap_beats h]
  exact List.sorted_insertionSort beatTimeLe beats

lemma argminIdx_lt : ∀ (l : List ℚ), l ≠ [] → argminIdx l < l.length
  | [], h => absurd rfl h
  | [_], _ => by simp [argminIdx]
  | x :: y :: ys, _ => by
      have ih := argminIdx_lt (y :: ys) (by simp)
      simp only [argminIdx]
      split
      · simp
      · simpa using Nat.succ_lt_succ ih

lemma argminIdx_min : ∀ (l : List ℚ), ∀ x ∈ l, l.getD (argminIdx l) 0 ≤ x
  | [], _, hx => absurd hx (by simp)
  | [a], x, hx => by
      simp only [List.mem_singleton] at hx
      subst hx
      simp [argminIdx]
  | a :: y :: ys, x, hx => by
      have ih := argminIdx_min (y :: ys)
      simp only [argminIdx]
      split
      · rename_i hle
        rcases List.mem_cons.mp hx with rfl | hx2
        · simp
        · simpa using le_trans hle (ih x hx2)
      · rename_i hle
        push_neg at hle
        rcases List.mem_cons.mp hx with rfl | hx2
        · simpa using hle.le
        · simpa using ih x hx2

lemma enumFrom_snd_mem : ∀ (i : ℕ) (l : List Beat) (p : ℕ × Beat),
    p ∈ enumFrom i l → p.2 ∈ l
  | _, [], _, hp => absurd hp (by simp [enumFrom])
  | i, b :: rest, p, hp => by
      simp only [enumFrom, List.mem_cons] at hp
      rcases hp with rfl | hp
      · simp
      · exact List.mem_cons_of_mem _ (enumFrom_snd_mem (i + 1) rest p hp)

lemma enumFrom_mem_of_lt : ∀ (i : ℕ) (l : List Beat) (j : ℕ) (hj : j < l.length),
    (i + j, l.get ⟨j, hj⟩) ∈ enumFrom i l
  | _, [], j, hj => absurd hj (by simp)
  | i, b :: rest, 0, _ => by simp [enumFrom]
  | i, b :: rest, j + 1, hj => by
      have ih := enumFrom_mem_of_lt (i + 1) rest j (Nat.lt_of_succ_lt_succ hj)
      simp only [enumFrom, List.mem_cons]
      right
      have : i + (j + 1) = i + 1 + j := by omega
      rw [this]
      exact ih

lemma convex_conf {a b w : ℚ} (ha0 : 0 ≤ a) (ha1 : a ≤ 1) (hb0 : 0 ≤ b)
    (hb1 : b ≤ 1) (hw0 : 0 ≤ w) (hw1 : w ≤ 1) :
    0 ≤ a * w + b * (1 - w) ∧ a * w + b * (1 - w) ≤ 1 := by
  constructor
  · have := mul_nonneg ha0 hw0
    have := mul_nonneg hb0 (by linarith : (0:ℚ) ≤ 1 - w)
    linarith
  · nlinarith

lemma matchIdx_lt {otherBeats : List Beat} {b : Beat} {j : ℕ}
    (h : matchIdx otherBeats b = some j) (hne : otherBeats ≠ []) :
    j < otherBeats.length := by
  simp only [matchIdx] at h
  split_ifs at h
  rcases Option.some.inj h with rfl
  have hdne : otherBeats.map (fun ob => |ob.time - b.time|) ≠ [] := by
    simpa using hne
  have := argminIdx_lt _ hdne
  simpa using this

lemma matchIdx_dist_lt {otherBeats : List Beat} {b : Beat} {j : ℕ}
    (h : matchIdx otherBeats b = some j) (hne : otherBeats ≠ [])
    (hj : j < otherBeats.length) :
    |(otherBeats.get ⟨j, hj⟩).time - b.time| < 1/20 := by
  simp only [matchIdx] at h
  split_ifs at h with hd
  rcases Option.some.inj h with rfl
  have hj2 : argminIdx (otherBeats.map fun ob => |ob.time - b.time|) <
      (otherBeats.map fun ob => |ob.time - b.time|).length := by
    exact argminIdx_lt _ (by simpa using hne)
  rw [List.getD_eq_getElem _ _ hj2] at hd
  simpa using hd

lemma matchIdx_some_of_close {otherBeats : List Beat} {b : Beat}
    (h : ∃ ob ∈ otherBeats, |ob.time - b.time| < 1/20) :
    matchIdx otherBeats b =
      some (argminIdx (otherBeats.map fun ob => |ob.time - b.time|)) := by
  obtain ⟨ob, hob, hclose⟩ := h
  unfold matchIdx
  rw [if_pos]
  have hmem : |ob.time - b.time| ∈ otherBeats.map fun ob => |ob.time - b.time| :=
    List.mem_map.mpr ⟨ob, hob, rfl⟩
  exact lt_of_le_of_lt (argminIdx_min _ _ hmem) hclose

lemma matchIdx_none_of_far {otherBeats : List Beat} {b : Beat}
    (hne : otherBeats ≠ [])
    (h : ∀ ob ∈ otherBeats, 1/20 ≤ |ob.time - b.time|) :
    matchIdx otherBeats b = none := by
  unfold matchIdx
  rw [if_neg]
  push_neg
  have hj : argminIdx (otherBeats.map fun ob => |ob.time - b.time|) <
      (otherBeats.map fun ob => |ob.time - b.time|).length :=
    argminIdx_lt _ (by simpa using hne)
  rw [List.getD_eq_getElem _ _ hj]
  have hjo : argminIdx (otherBeats.map fun ob => |ob.time - b.time|) <
      otherBeats.length := by simpa using hj
  rw [List.getElem_map]
  exact h _ (List.getElem_mem hjo)

lemma mergeMainLoop_ok (otherBeats : List Beat) (w : ℚ) (hw0 : 0 ≤ w)
    (hw1 : w ≤ 1) (hob : ∀ b ∈ otherBeats, b.valid) (hne : otherBeats ≠ []) :
    ∀ bs : List Beat, (∀ b ∈ bs, b.valid) →
      mergeMainLoop otherBeats w bs =
        Except.ok (bs.map (blendBeat otherBeats w), usedIdxs bs otherBeats) := by
  intro bs
  induction bs with
  | nil => intro _; rfl
  | cons b rest ih =>
      intro hbs
      have hb : b.valid := hbs b (List.mem_cons_self b rest)
      have hrest : ∀ x ∈ rest, x.valid := fun x hx => hbs x (List.mem_cons_of_mem _ hx)
      cases hmi : matchIdx otherBeats b with
      | some j =>
          have hj : j < otherBeats.length := matchIdx_lt hmi hne
          have hobv : (otherBeats.getD j default).valid := by
            rw [List.getD_eq_getElem _ _ hj]
            exact hob _ (List.getElem_mem hj)
          have htime : 0 ≤ b.time * w + (otherBeats.getD j default).time * (1 - w) := by
            have h1 := mul_nonneg hb.2.2.1 hw0
            have h2 := mul_nonneg hobv.2.2.1 (by linarith : (0:ℚ) ≤ 1 - w)
            linarith
          have hconf := convex_conf hb.1 hb.2.1 hobv.1 hobv.2.1 hw0 hw1
          simp only [mergeMainLoop, hmi, mkBeat_ok hconf.1 hconf.2 htime hb.2.2.2,
            ih hrest]
          simp [blendBeat, hmi, usedIdxs, List.filterMap_cons]
      | none =>
          have hconf0 : 0 ≤ b.confidence * w := mul_nonneg hb.1 hw0
          have hconf1 : b.confidence * w ≤ 1 := by nlinarith [hb.1, hb.2.1]
          simp only [mergeMainLoop, hmi, mkBeat_ok hconf0 hconf1 hb.2.2.1 hb.2.2.2,
            ih hrest]
          simp [blendBeat, hmi, usedIdxs, List.filterMap_cons]

lemma leftoverLoop_ok (used : List ℕ) (w : ℚ) (hw0 : 0 ≤ w) (hw1 : w ≤ 1) :
    ∀ l : List (ℕ × Beat), (∀ q ∈ l, q.2.valid) →
      leftoverLoop used w l = Except.ok
        ((l.filter fun q => decide (q.1 ∉ used)).map fun q =>
          ⟨q.2.time, q.2.position, q.2.confidence * (1 - w)⟩) := by
  intro l
  induction l with
  | nil => intro _; rfl
  | cons q rest ih =>
      intro hl
      obtain ⟨i, b⟩ := q
      have hb : b.valid := hl ⟨i, b⟩ (List.mem_cons_self _ rest)
      have hrest : ∀ x ∈ rest, x.2.valid := fun x hx => hl x (List.mem_cons_of_mem _ hx)
      by_cases hmem : i ∈ used
      · simp only [leftoverLoop, if_pos hmem, ih hrest]
        simp [List.filter_cons, hmem]
      · have hc0 : 0 ≤ b.confidence * (1 - w) :=
          mul_nonneg hb.1 (by linarith : (0:ℚ) ≤ 1 - w)
        have hc1 : b.confidence * (1 - w) ≤ 1 := by nlinarith [hb.1, hb.2.1]
        simp only [leftoverLoop, if_neg hmem,
          mkBeat_ok hc0 hc1 hb.2.2.1 hb.2.2.2, ih hrest]
        simp [List.filter_cons, hmem]

lemma insertionSort_ne_nil {l : List Beat} (h : l ≠ []) :
    List.insertionSort beatTimeLe l ≠ [] := by
  intro hh
  have hp := List.perm_insertionSort beatTimeLe l
  rw [hh] at hp
  exact h hp.symm.eq_nil

lemma merge_with_ok (p o : TempoMap) (w : ℚ) (hp : p.valid) (ho : o.valid)
    (hw0 : 0 ≤ w) (hw1 : w ≤ 1) :
    p.merge_with o w = Except.ok
      ⟨List.insertionSort beatTimeLe
          (p.beats.map (blendBeat o.beats w) ++
            leftoverBeatsPure o.beats (usedIdxs p.beats o.beats) w),
        p.average_bpm * w + o.average_bpm * (1 - w), none, none, none,
        p.time_signature⟩ := by
  unfold TempoMap.merge_with
  rw [if_neg (not_not_intro ⟨hw0, hw1⟩)]
  simp only [leftoverBeatsPure]
  rw [mergeMainLoop_ok o.beats w hw0 hw1 ho.2.1 ho.1 p.beats hp.2.1]
  dsimp only
  rw [leftoverLoop_ok (usedIdxs p.beats o.beats) w hw0 hw1 (enumFrom 0 o.beats)
    (fun q hq => ho.2.1 q.2 (enumFrom_snd_mem 0 o.beats q hq))]
  dsimp only
  have hne : (p.beats.map (blendBeat o.beats w) ++
      ((enumFrom 0 o.beats).filter fun q =>
        decide (q.1 ∉ usedIdxs p.beats o.beats)).map fun q =>
          (⟨q.2.time, q.2.position, q.2.confidence * (1 - w)⟩ : Beat)) ≠ [] := by
    intro hh
    rcases List.append_eq_nil.mp hh with ⟨h1, _⟩
    exact hp.1 (List.map_eq_nil_iff.mp h1)
  rw [mkTempoMap_ok (insertionSort_ne_nil hne) (by rfl)]
  rw [(List.sorted_insertionSort beatTimeLe _).insertionSort_eq]

lemma merge_with_beats_perm (p o : TempoMap) (w : ℚ) (hp : p.valid)
    (ho : o.valid) (hw0 : 0 ≤ w) (hw1 : w ≤ 1) {m : TempoMap}
    (h : p.merge_with o w = Except.ok m) :
    m.beats.Perm
      (p.beats.map (blendBeat o.beats w) ++
        leftoverBeatsPure o.beats (usedIdxs p.beats o.beats) w) := by
  rw [merge_with_ok p o w hp ho hw0 hw1] at h
  rcases Except.ok.inj h with rfl
  exact List.perm_insertionSort beatTimeLe _

/-- C7: for every non-empty input beat list, in any order, the constructed
TempoMap stores its beats sorted ascending by time (construction re-sorts,
never rejects unsorted input); beats at times [2.0, 0.5, 1.5, 1.0] come out
in order [0.5, 1.0, 1.5, 2.0]; and the invariant holds for the result of
every constructing operation (estimator output via `mkTempoMap`,
`filter_by_confidence`, `quantize_to_grid`, `merge_with`). -/
theorem C7_beats_sorted :
    (∀ (beats : List Beat) (avg : ℚ) (tc tcf db : Option (List ℚ))
        (ts : Option (ℤ × ℤ)) (m : TempoMap),
        mkTempoMap beats avg tc tcf db ts = Except.ok m →
        m.beats.Pairwise beatTimeLe)
    ∧ mkTempoMap [⟨2, 1, 1⟩, ⟨1/2, 1, 1⟩, ⟨3/2, 1, 1⟩, ⟨1, 1, 1⟩] 120
        none none none none =
      Except.ok ⟨[⟨1/2, 1, 1⟩, ⟨1, 1, 1⟩, ⟨3/2, 1, 1⟩, ⟨2, 1, 1⟩], 120,
        none, none, none, none⟩
    ∧ (∀ (tm : TempoMap) (mc : ℚ) (m : TempoMap),
        tm.filter_by_confidence mc = Except.ok m → m.beats.Pairwise beatTimeLe)
    ∧ (∀ (tm : TempoMap) (g : ℚ) (m : TempoMap),
        tm.quantize_to_grid g = Except.ok m → m.beats.Pairwise beatTimeLe)
    ∧ (∀ (p o : TempoMap) (w : ℚ) (m : TempoMap),
        p.merge_with o w = Except.ok m → m.beats.Pairwise beatTimeLe) := by
  refine ⟨fun _ _ _ _ _ _ _ h => mkTempoMap_sorted h, by decide, ?_, ?_, ?_⟩
  · intro tm mc m h
    simp only [TempoMap.filter_by_confidence] at h
    split_ifs at h
    all_goals exact mkTempoMap_sorted h
  · intro tm g m h
    simp only [TempoMap.quantize_to_grid] at h
    cases hq : quantizeLoop g tm.beats with
    | error e => rw [hq] at h; exact absurd h (by simp)
    | ok qb => rw [hq] at h; exact mkTempoMap_sorted h
  · intro p o w m h
    simp only [TempoMap.merge_with] at h
    split_ifs at h
    cases hm : mergeMainLoop o.beats w p.beats with
    | error e => rw [hm] at h; exact absurd h (by simp)
    | ok v =>
        obtain ⟨bs, used⟩ := v
        simp only [hm] at h
        cases hl : leftoverLoop used w (enumFrom 0 o.beats) with
        | error e =>
            simp only [hl] at h
            exact absurd h (by simp)
        | ok extra =>
            simp only [hl] at h
            exact mkTempoMap_sorted h

/-- C7 witness: the hypothesis-bearing conjuncts instantiated at concrete
inputs, with the constructions evaluated. -/
theorem C7_beats_sorted_witness :
    ∃ m, (TempoMap.mk [⟨0, 1, 1⟩, ⟨1, 1, 1⟩] 120 none none none
        none).filter_by_confidence 0 = Except.ok m ∧
      m.beats.Pairwise beatTimeLe := by
  refine ⟨⟨[⟨0, 1, 1⟩, ⟨1, 1, 1⟩], 60, none, none, none, none⟩, by decide, ?_⟩
  exact C7_beats_sorted.2.2.1 (TempoMap.mk [⟨0, 1, 1⟩, ⟨1, 1, 1⟩] 120 none
    none none none) 0 ⟨[⟨0, 1, 1⟩, ⟨1, 1, 1⟩], 60, none, none, none, none⟩
    (by decide)

/-- C8: constructing a Beat with time < 0, position < 1, or confidence
outside [0,1] fails with a validation error; constructing a TempoMap with
an empty beat list fails with a validation error; in the `Except` model the
failure is returned at construction and no value is produced. -/
theorem C8_construction_validation :
    (∀ (t : ℚ) (p : ℤ) (c : ℚ), (c < 0 ∨ 1 < c ∨ t < 0 ∨ p < 1) →
      ∃ e, mkBeat t p c = Except.error e)
    ∧ (∀ (avg : ℚ) (tc tcf db : Option (List ℚ)) (ts : Option (ℤ × ℤ)),
      ∃ e, mkTempoMap [] avg tc tcf db ts = Except.error e) := by
  constructor
  · intro t p c h
    unfold mkBeat
    split_ifs with h1 h2 h3
    all_goals first
      | exact ⟨_, rfl⟩
      | (rcases h with hc | hc | hc | hc <;> linarith [h1.1, h1.2])
  · intro avg tc tcf db ts
    exact ⟨_, rfl⟩

/-- C8 witness: the validation failures at the concrete inputs named by the
spec (confidence 1.5, time −1, position 0, empty beat list). -/
theorem C8_construction_validation_witness :
    (∃ e, mkBeat 0 1 (3/2) = Except.error e)
    ∧ (∃ e, mkBeat (-1) 1 (1/2) = Except.error e)
    ∧ (∃ e, mkBeat 0 0 (1/2) = Except.error e)
    ∧ (∃ e, mkTempoMap [] 120 none none none none = Except.error e) :=
  ⟨C8_construction_validation.1 0 1 (3/2) (Or.inr (Or.inl (by norm_num))),
    C8_construction_validation.1 (-1) 1 (1/2) (Or.inr (Or.inr (Or.inl (by norm_num)))),
    C8_construction_validation.1 0 0 (1/2) (Or.inr (Or.inr (Or.inr (by norm_num)))),
    C8_construction_validation.2 120 none none none none⟩

/-- C9: for valid tempo maps and weight in [0,1], `merge_with` never raises
a validation failure: it returns a map, and every beat it constructed has
non-negative time and confidence in [0,1] (convex combinations and
attenuations of in-range values), so the Beat-construction error branch is
unreachable. -/
theorem C9_merge_never_fails (p o : TempoMap) (w : ℚ) (hp : p.valid)
    (ho : o.valid) (hw0 : 0 ≤ w) (hw1 : w ≤ 1) :
    ∃ m, p.merge_with o w = Except.ok m ∧
      ∀ b ∈ m.beats, 0 ≤ b.time ∧ 0 ≤ b.confidence ∧ b.confidence ≤ 1 := by
  refine ⟨_, merge_with_ok p o w hp ho hw0 hw1, ?_⟩
  intro b hb
  rw [show (⟨List.insertionSort beatTimeLe
      (p.beats.map (blendBeat o.beats w) ++
        leftoverBeatsPure o.beats (usedIdxs p.beats o.beats) w),
      p.average_bpm * w + o.average_bpm * (1 - w), none, none, none,
      p.time_signature⟩ : TempoMap).beats = _ from rfl,
    List.mem_insertionSort] at hb
  rcases List.mem_append.mp hb with hmain | hleft
  · obtain ⟨a, ha, rfl⟩ := List.mem_map.mp hmain
    have hav := hp.2.1 a ha
    cases hmi : matchIdx o.beats a with
    | some j =>
        have hj := matchIdx_lt hmi ho.1
        have hobv : (o.beats.getD j default).valid := by
          rw [List.getD_eq_getElem _ _ hj]
          exact ho.2.1 _ (List.getElem_mem hj)
        have hconf := convex_conf hav.1 hav.2.1 hobv.1 hobv.2.1 hw0 hw1
        have htime : 0 ≤ a.time * w + (o.beats.getD j default).time * (1 - w) := by
          have h1 := mul_nonneg hav.2.2.1 hw0
          have h2 := mul_nonneg hobv.2.2.1 (by linarith : (0:ℚ) ≤ 1 - w)
          linarith
        simp only [blendBeat, hmi]
        exact ⟨htime, hconf.1, hconf.2⟩
    | none =>
        simp only [blendBeat, hmi]
        exact ⟨hav.2.2.1, mul_nonneg hav.1 hw0, by nlinarith [hav.1, hav.2.1]⟩
  · obtain ⟨q, hq, rfl⟩ := List.mem_map.mp hleft
    have hqv : q.2.valid :=
      ho.2.1 q.2 (enumFrom_snd_mem 0 o.beats q (List.mem_filter.mp hq).1)
    refine ⟨hqv.2.2.1, mul_nonneg hqv.1 (by linarith), ?_⟩
    show q.2.confidence * (1 - w) ≤ 1
    nlinarith [mul_nonneg hqv.1 hw0, hqv.1, hqv.2.1]

/-- C9 witness: `merge_with` succeeds on two concrete valid maps with
weight 1/2 and the resulting beats are in range. -/
theorem C9_merge_never_fails_witness :
    ∃ m, (TempoMap.mk [⟨0, 1, 1⟩] 120 none none none none).merge_with
        (TempoMap.mk [⟨1, 1, 1⟩] 100 none none none none) (1/2) =
      Except.ok m ∧
      ∀ b ∈ m.beats, 0 ≤ b.time ∧ 0 ≤ b.confidence ∧ b.confidence ≤ 1 :=
  C9_merge_never_fails _ _ (1/2) (by decide) (by decide) (by norm_num)
    (by norm_num)

/-- C1: for valid tempo maps and weight w in [0,1], `merge_with` processes
each primary beat b as follows: when some beat of `other` is strictly
within 50 ms, the output contains the blend with the closest such beat
(time and confidence convexly combined, position kept); otherwise the
output contains b unchanged except confidence attenuated to
`b.confidence * w`. Concretely, beats 40 ms apart merge into one blended
beat, and beats 60 ms apart stay two beats with attenuated confidences. -/
theorem C1_merge_matching :
    (∀ (p o : TempoMap) (w : ℚ), p.valid → o.valid → 0 ≤ w → w ≤ 1 →
      ∃ m, p.merge_with o w = Except.ok m ∧
        ∀ b ∈ p.beats,
          ((∃ ob ∈ o.beats, |ob.time - b.time| < 1/20) →
            Beat.mk (b.time * w + (closestBeat o.beats b).time * (1 - w))
              b.position
              (b.confidence * w + (closestBeat o.beats b).confidence * (1 - w))
              ∈ m.beats)
          ∧ ((∀ ob ∈ o.beats, 1/20 ≤ |ob.time - b.time|) →
            Beat.mk b.time b.position (b.confidence * w) ∈ m.beats))
    ∧ (TempoMap.mk [⟨0, 1, 1⟩] 120 none none none none).merge_with
        (TempoMap.mk [⟨1/25, 1, 1⟩] 100 none none none none) (1/2) =
      Except.ok ⟨[⟨1/50, 1, 1⟩], 110, none, none, none, none⟩
    ∧ (TempoMap.mk [⟨0, 1, 1⟩] 120 none none none none).merge_with
        (TempoMap.mk [⟨3/50, 1, 1⟩] 100 none none none none) (1/2) =
      Except.ok ⟨[⟨0, 1, 1/2⟩, ⟨3/50, 1, 1/2⟩], 110, none, none, none,
        none⟩ := by
  refine ⟨?_, by decide, by decide⟩
  intro p o w hp ho hw0 hw1
  refine ⟨_, merge_with_ok p o w hp ho hw0 hw1, ?_⟩
  intro b hb
  constructor
  · intro hclose
    have hmi := matchIdx_some_of_close hclose
    show _ ∈ List.insertionSort beatTimeLe
      (p.beats.map (blendBeat o.beats w) ++
        leftoverBeatsPure o.beats (usedIdxs p.beats o.beats) w)
    apply (List.mem_insertionSort beatTimeLe).mpr
    apply List.mem_append.mpr
    left
    apply List.mem_map.mpr
    refine ⟨b, hb, ?_⟩
    simp only [blendBeat, hmi, closestBeat]
  · intro hfar
    have hmi := matchIdx_none_of_far ho.1 hfar
    show _ ∈ List.insertionSort beatTimeLe
      (p.beats.map (blendBeat o.beats w) ++
        leftoverBeatsPure o.beats (usedIdxs p.beats o.beats) w)
    apply (List.mem_insertionSort beatTimeLe).mpr
    apply List.mem_append.mpr
    left
    apply List.mem_map.mpr
    refine ⟨b, hb, ?_⟩
    simp only [blendBeat, hmi]

/-- C1 witness: the general statement instantiated at concrete valid maps
40 ms apart with weight 1/2. -/
theorem C1_merge_matching_witness :
    ∃ m, (TempoMap.mk [⟨0, 1, 1⟩] 120 none none none none).merge_with
        (TempoMap.mk [⟨1/25, 1, 1⟩] 100 none none none none) (1/2) =
      Except.ok m ∧
      ∀ b ∈ (TempoMap.mk [⟨0, 1, 1⟩] 120 none none none none).beats,
        ((∃ ob ∈ (TempoMap.mk [⟨1/25, 1, 1⟩] 100 none none none none).beats,
            |ob.time - b.time| < 1/20) →
          Beat.mk (b.time * (1/2) +
              (closestBeat (TempoMap.mk [⟨1/25, 1, 1⟩] 100 none none none
                none).beats b).time * (1 - 1/2)) b.position
            (b.confidence * (1/2) +
              (closestBeat (TempoMap.mk [⟨1/25, 1, 1⟩] 100 none none none
                none).beats b).confidence * (1 - 1/2)) ∈ m.beats)
        ∧ ((∀ ob ∈ (TempoMap.mk [⟨1/25, 1, 1⟩] 100 none none none
              none).beats, 1/20 ≤ |ob.time - b.time|) →
          Beat.mk b.time b.position (b.confidence * (1/2)) ∈ m.beats) :=
  C1_merge_matching.1 (TempoMap.mk [⟨0, 1, 1⟩] 120 none none none none)
    (TempoMap.mk [⟨1/25, 1, 1⟩] 100 none none none none) (1/2)
    (by decide) (by decide) (by norm_num) (by norm_num)

/-- C10: with weight 1, every beat of B at distance at least 50 ms from
all of A's beats still appears in the merge output, with confidence
exactly 0; symmetrically with weight 0 for A's unmatched beats. -/
theorem C10_extreme_weights (A B : TempoMap) (hA : A.valid) (hB : B.valid) :
    (∃ m, A.merge_with B 1 = Except.ok m ∧
      ∀ (i : ℕ) (hi : i < B.beats.length),
        (∀ a ∈ A.beats, 1/20 ≤ |(B.beats.get ⟨i, hi⟩).time - a.time|) →
        Beat.mk (B.beats.get ⟨i, hi⟩).time (B.beats.get ⟨i, hi⟩).position 0
          ∈ m.beats)
    ∧ (∃ m, A.merge_with B 0 = Except.ok m ∧
      ∀ b ∈ A.beats, (∀ ob ∈ B.beats, 1/20 ≤ |ob.time - b.time|) →
        Beat.mk b.time b.position 0 ∈ m.beats) := by
  constructor
  · refine ⟨_, merge_with_ok A B 1 hA hB zero_le_one le_rfl, ?_⟩
    intro i hi hfar
    show _ ∈ List.insertionSort beatTimeLe
      (A.beats.map (blendBeat B.beats 1) ++
        leftoverBeatsPure B.beats (usedIdxs A.beats B.beats) 1)
    apply (List.mem_insertionSort beatTimeLe).mpr
    apply List.mem_append.mpr
    right
    unfold leftoverBeatsPure
    apply List.mem_map.mpr
    refine ⟨⟨i, B.beats.get ⟨i, hi⟩⟩, ?_, ?_⟩
    · apply List.mem_filter.mpr
      constructor
      · simpa using enumFrom_mem_of_lt 0 B.beats i hi
      · simp only [decide_eq_true_eq]
        intro hmem
        simp only [usedIdxs] at hmem
        obtain ⟨a, ha, hmi⟩ := List.mem_filterMap.mp hmem
        have hd := matchIdx_dist_lt hmi hB.1 hi
        exact absurd hd (not_lt.mpr (hfar a ha))
    · have hz : (B.beats.get ⟨i, hi⟩).confidence * (1 - 1) = 0 := by ring
      show (⟨(B.beats.get ⟨i, hi⟩).time, (B.beats.get ⟨i, hi⟩).position,
        (B.beats.get ⟨i, hi⟩).confidence * (1 - 1)⟩ : Beat) = _
      rw [hz]
  · refine ⟨_, merge_with_ok A B 0 hA hB le_rfl zero_le_one, ?_⟩
    intro b hb hfar
    have hmi := matchIdx_none_of_far hB.1 hfar
    show _ ∈ List.insertionSort beatTimeLe
      (A.beats.map (blendBeat B.beats 0) ++
        leftoverBeatsPure B.beats (usedIdxs A.beats B.beats) 0)
    apply (List.mem_insertionSort beatTimeLe).mpr
    apply List.mem_append.mpr
    left
    apply List.mem_map.mpr
    refine ⟨b, hb, ?_⟩
    simp only [blendBeat, hmi]
    rw [mul_zero]

/-- C10 witness: the two extreme-weight statements at concrete valid maps
whose beats are 1 s apart. -/
theorem C10_extreme_weights_witness :
    (∃ m, (TempoMap.mk [⟨0, 1, 1⟩] 120 none none none none).merge_with
        (TempoMap.mk [⟨1, 1, 1⟩] 100 none none none none) 1 =
      Except.ok m ∧
      ∀ (i : ℕ)
        (hi : i < (TempoMap.mk [⟨1, 1, 1⟩] 100 none none none
          none).beats.length),
        (∀ a ∈ (TempoMap.mk [⟨0, 1, 1⟩] 120 none none none none).beats,
          1/20 ≤ |((TempoMap.mk [⟨1, 1, 1⟩] 100 none none none
            none).beats.get ⟨i, hi⟩).time - a.time|) →
        Beat.mk ((TempoMap.mk [⟨1, 1, 1⟩] 100 none none none
            none).beats.get ⟨i, hi⟩).time
          ((TempoMap.mk [⟨1, 1, 1⟩] 100 none none none
            none).beats.get ⟨i, hi⟩).position 0 ∈ m.beats)
    ∧ (∃ m, (TempoMap.mk [⟨0, 1, 1⟩] 120 none none none none).merge_with
        (TempoMap.mk [⟨1, 1, 1⟩] 100 none none none none) 0 =
      Except.ok m ∧
      ∀ b ∈ (TempoMap.mk [⟨0, 1, 1⟩] 120 none none none none).beats,
        (∀ ob ∈ (TempoMap.mk [⟨1, 1, 1⟩] 100 none none none none).beats,
          1/20 ≤ |ob.time - b.time|) →
        Beat.mk b.time b.position 0 ∈ m.beats) :=
  C10_extreme_weights (TempoMap.mk [⟨0, 1, 1⟩] 120 none none none none)
    (TempoMap.mk [⟨1, 1, 1⟩] 100 none none none none) (by decide) (by decide)

/-- C2 counterexample: with primary beats at 0 s and 0.04 s and a single
other beat at 0.02 s (weight 1/2), both primary beats are within 50 ms of
the other beat, and both blend against its index 0: the output is the two
blended beats at 0.01 s and 0.03 s, each with confidence 1. Under the
claim, the second primary beat could not merge against the already-consumed
index 0 and would have been kept at time 0.04 s with confidence attenuated
to 1/2 — but no such beat is in the output. -/
theorem C2_counterexample :
    (TempoMap.mk [⟨0, 1, 1⟩, ⟨1/25, 1, 1⟩] 120 none none none
        none).merge_with
        (TempoMap.mk [⟨1/50, 1, 1⟩] 100 none none none none) (1/2) =
      Except.ok ⟨[⟨1/100, 1, 1⟩, ⟨3/100, 1, 1⟩], 110, none, none, none, none⟩
    ∧ Beat.mk (3/100) 1 1 ∈ ([⟨1/100, 1, 1⟩, ⟨3/100, 1, 1⟩] : List Beat)
    ∧ Beat.mk (1/25) 1 (1/2) ∉
        ([⟨1/100, 1, 1⟩, ⟨3/100, 1, 1⟩] : List Beat) := by
  decide

/-- C2 (amended): marking a matched other-beat index as consumed only
excludes it from the leftover-append pass: for valid inputs the merged
beats are a permutation of the per-primary blend results (each primary
beat matched against the full other list, independently of any prior
consumption) followed by the other beats at unconsumed indices with
attenuated confidence. Several primary beats may consume the same
other-beat index: with primaries at 0 s and 0.04 s against a single other
beat at 0.02 s, index 0 is consumed twice. -/
theorem C2_consumption_amended :
    (∀ (p o : TempoMap) (w : ℚ), p.valid → o.valid → 0 ≤ w → w ≤ 1 →
      ∃ m, p.merge_with o w = Except.ok m ∧
        m.beats.Perm
          (p.beats.map (blendBeat o.beats w) ++
            leftoverBeatsPure o.beats (usedIdxs p.beats o.beats) w))
    ∧ usedIdxs [⟨0, 1, 1⟩, ⟨1/25, 1, 1⟩] [⟨1/50, 1, 1⟩] = [0, 0] := by
  refine ⟨?_, by decide⟩
  intro p o w hp ho hw0 hw1
  exact ⟨_, merge_with_ok p o w hp ho hw0 hw1,
    List.perm_insertionSort beatTimeLe _⟩

/-- C2 witness: the amended permutation statement at concrete inputs. -/
theorem C2_consumption_amended_witness :
    ∃ m, (TempoMap.mk [⟨0, 1, 1⟩] 80 none none none none).merge_with
        (TempoMap.mk [⟨2, 1, 1⟩] 90 none none none none) (1/4) =
      Except.ok m ∧
      m.beats.Perm
        ((TempoMap.mk [⟨0, 1, 1⟩] 80 none none none none).beats.map
            (blendBeat (TempoMap.mk [⟨2, 1, 1⟩] 90 none none none
              none).beats (1/4)) ++
          leftoverBeatsPure
            (TempoMap.mk [⟨2, 1, 1⟩] 90 none none none none).beats
            (usedIdxs (TempoMap.mk [⟨0, 1, 1⟩] 80 none none none
              none).beats
              (TempoMap.mk [⟨2, 1, 1⟩] 90 none none none none).beats)
            (1/4)) :=
  C2_consumption_amended.1 (TempoMap.mk [⟨0, 1, 1⟩] 80 none none none none)
    (TempoMap.mk [⟨2, 1, 1⟩] 90 none none none none) (1/4) (by decide)
    (by decide) (by norm_num) (by norm_num)

/-- C3 counterexample: on beats at times [0, 0.5, 1.5] that all pass the
threshold, the code recomputes `average_bpm` as the mean of the
instantaneous BPM values `mean(60/interval) = (120 + 60)/2 = 90`, not as
`60 / mean(intervals) = 60 / 0.75 = 80` as the claim states. -/
theorem C3_counterexample :
    (TempoMap.mk [⟨0, 1, 1⟩, ⟨1/2, 1, 1⟩, ⟨3/2, 1, 1⟩] 100 none none none
        none).filter_by_confidence 0 =
      Except.ok ⟨[⟨0, 1, 1⟩, ⟨1/2, 1, 1⟩, ⟨3/2, 1, 1⟩], 90, none, none,
        none, none⟩
    ∧ (90 : ℚ) ≠ 60 / ((1/2 + 1) / 2) := by
  decide

/-- C3 (amended): `filter_by_confidence` retains exactly the beats with
confidence at least the threshold; if at least 2 beats remain,
`average_bpm` is the mean of the instantaneous BPM values `60/interval`
over the retained beats' consecutive intervals (not `60/mean(intervals)`);
if exactly 1 remains, `average_bpm` is carried over unchanged. For beats
with confidences [0.9, 0.7, 0.9] at times [0, 0.5, 1], filtering at 0.85
keeps the 1st and 3rd beats with `average_bpm = 60`. -/
theorem C3_filter_amended :
    (∀ (tm : TempoMap) (mc : ℚ), tm.valid →
      tm.beats.filter (fun b => decide (mc ≤ b.confidence)) ≠ [] →
      ∃ m, tm.filter_by_confidence mc = Except.ok m ∧
        m.beats = tm.beats.filter (fun b => decide (mc ≤ b.confidence)) ∧
        (1 < m.beats.length →
          m.average_bpm =
            ((npDiff (m.beats.map Beat.time)).map fun i => 60 / i).sum /
              ((npDiff (m.beats.map Beat.time)).length : ℚ)) ∧
        (m.beats.length = 1 → m.average_bpm = tm.average_bpm))
    ∧ (TempoMap.mk [⟨0, 1, 9/10⟩, ⟨1/2, 1, 7/10⟩, ⟨1, 1, 9/10⟩] 100 none
        none none none).filter_by_confidence (17/20) =
      Except.ok ⟨[⟨0, 1, 9/10⟩, ⟨1, 1, 9/10⟩], 60, none, none, none,
        none⟩ := by
  refine ⟨?_, by decide⟩
  intro tm mc hv hne
  have hsorted : (tm.beats.filter
      (fun b => decide (mc ≤ b.confidence))).Pairwise beatTimeLe :=
    hv.2.2.1.filter _
  have key : tm.filter_by_confidence mc = Except.ok
      ⟨tm.beats.filter (fun b => decide (mc ≤ b.confidence)),
        if 1 < (tm.beats.filter (fun b => decide (mc ≤ b.confidence))).length
        then ((npDiff ((tm.beats.filter
            (fun b => decide (mc ≤ b.confidence))).map Beat.time)).map
              fun i => 60 / i).sum /
            ((npDiff ((tm.beats.filter
              (fun b => decide (mc ≤ b.confidence))).map Beat.time)).length : ℚ)
        else tm.average_bpm,
        tm.tempo_curve, tm.tempo_confidence, tm.downbeats,
        tm.time_signature⟩ := by
    simp only [TempoMap.filter_by_confidence]
    rw [if_neg (fun hh => hne (List.isEmpty_iff.mp hh))]
    rw [mkTempoMap_ok hne hv.2.2.2]
    rw [List.Sorted.insertionSort_eq hsorted]
  refine ⟨_, key, rfl, ?_, ?_⟩
  · intro hlen
    show (if 1 < (tm.beats.filter (fun b => decide (mc ≤ b.confidence))).length
      then _ else tm.average_bpm) = _
    rw [if_pos hlen]
  · intro hlen
    have hlen2 : (tm.beats.filter
        (fun b => decide (mc ≤ b.confidence))).length = 1 := hlen
    show (if 1 < (tm.beats.filter (fun b => decide (mc ≤ b.confidence))).length
      then _ else tm.average_bpm) = _
    rw [if_neg (by omega : ¬ 1 <
      (tm.beats.filter (fun b => decide (mc ≤ b.confidence))).length)]

/-- C3 witness: the amended statement instantiated at the spec's concrete
example. -/
theorem C3_filter_amended_witness :
    ∃ m, (TempoMap.mk [⟨0, 1, 9/10⟩, ⟨1/2, 1, 7/10⟩, ⟨1, 1, 9/10⟩] 100 none
        none none none).filter_by_confidence (17/20) = Except.ok m ∧
      m.beats = (TempoMap.mk [⟨0, 1, 9/10⟩, ⟨1/2, 1, 7/10⟩, ⟨1, 1, 9/10⟩]
          100 none none none none).beats.filter
        (fun b => decide ((17/20 : ℚ) ≤ b.confidence)) ∧
      (1 < m.beats.length →
        m.average_bpm =
          ((npDiff (m.beats.map Beat.time)).map fun i => 60 / i).sum /
            ((npDiff (m.beats.map Beat.time)).length : ℚ)) ∧
      (m.beats.length = 1 →
        m.average_bpm = (TempoMap.mk [⟨0, 1, 9/10⟩, ⟨1/2, 1, 7/10⟩,
          ⟨1, 1, 9/10⟩] 100 none none none none).average_bpm) :=
  C3_filter_amended.1 (TempoMap.mk [⟨0, 1, 9/10⟩, ⟨1/2, 1, 7/10⟩,
      ⟨1, 1, 9/10⟩] 100 none none none none) (17/20) (by decide) (by decide)

lemma specFoldStep_error : ∀ (rest : List (TempoMap × ℚ)) (e : String),
    rest.foldl specFoldStep (Except.error e) = Except.error e
  | [], _ => rfl
  | _ :: rest, e => specFoldStep_error rest e

lemma combineFold_cons (c : TempoMap) (t : ℚ) (tm : TempoMap) (w : ℚ)
    (rest : List (TempoMap × ℚ)) :
    combineFold c t ((tm, w) :: rest) =
      match c.merge_with tm (1 - w / (t + w)) with
      | Except.error e => Except.error e
      | Except.ok cc => combineFold cc (t + w) rest := rfl

lemma specFoldStep_ok (c : TempoMap) (t : ℚ) (tm : TempoMap) (w : ℚ) :
    specFoldStep (Except.ok (c, t)) (tm, w) =
      match c.merge_with tm (1 - w / (t + w)) with
      | Except.error e => Except.error e
      | Except.ok c2 => Except.ok (c2, t + w) := rfl

lemma combineFold_eq_foldl : ∀ (rest : List (TempoMap × ℚ)) (c : TempoMap)
    (t : ℚ), combineFold c t rest =
      (rest.foldl specFoldStep (Except.ok (c, t))).map Prod.fst
  | [], _, _ => rfl
  | (tm, w) :: rest, c, t => by
      rw [combineFold_cons, List.foldl_cons, specFoldStep_ok]
      cases hm : c.merge_with tm (1 - w / (t + w)) with
      | error e =>
          rw [specFoldStep_error rest e]
          rfl
      | ok cc => exact combineFold_eq_foldl rest cc (t + w)

lemma results_nil_of_all_failed {l : List (DetectorOutcome × ℚ)}
    (hf : ∀ d ∈ l, d.1.isSuccess = false) :
    (l.filterMap fun d =>
      match d.1 with
      | DetectorOutcome.success tm => some (tm, d.2)
      | DetectorOutcome.failure _ => none) = [] := by
  induction l with
  | nil => rfl
  | cons d rest ih =>
      have hd := hf d (List.mem_cons_self d rest)
      cases hdo : d.1 with
      | success tm =>
          rw [hdo] at hd
          exact absurd hd (by simp [DetectorOutcome.isSuccess])
      | failure r =>
          simp only [List.filterMap_cons, hdo]
          exact ih fun x hx => hf x (List.mem_cons_of_mem _ hx)

/-- C4 counterexample: when all estimators fail, the raised aggregate
failure is the fixed `RuntimeError("All detectors failed")` regardless of
the individual failure reasons — two runs whose only difference is the
per-estimator failure reason produce identical exception values, so the
exception cannot carry the set of reasons, contrary to the claim. -/
theorem C4_counterexample :
    ensembleDetect [(DetectorOutcome.failure "madmom: decode error", 1)] =
      Except.error (EnsembleError.runtimeError "All detectors failed")
    ∧ ensembleDetect
        [(DetectorOutcome.failure "librosa: onset failure", 3/5)] =
      Except.error (EnsembleError.runtimeError "All detectors failed")
    ∧ "madmom: decode error" ≠ "librosa: onset failure" := by
  decide

/-- C4 (amended): when every configured estimator fails, the reconciler
raises `RuntimeError("All detectors failed")` — an error kind distinct
from `AlgorithmError` and from `ValueError` — but it carries only that
fixed message; the individual per-estimator failure reasons are logged,
not carried in the raised error. -/
theorem C4_all_failed_amended (detectors : List (DetectorOutcome × ℚ))
    (hne : detectors ≠ [])
    (hf : ∀ d ∈ detectors, d.1.isSuccess = false) :
    ensembleDetect detectors =
      Except.error (EnsembleError.runtimeError "All detectors failed")
    ∧ (∀ s, EnsembleError.runtimeError "All detectors failed" ≠
        EnsembleError.algorithmError s)
    ∧ (∀ s, EnsembleError.runtimeError "All detectors failed" ≠
        EnsembleError.valueError s) := by
  refine ⟨?_, fun s h => EnsembleError.noConfusion h,
    fun s h => EnsembleError.noConfusion h⟩
  simp only [ensembleDetect]
  rw [if_neg (fun hh => hne (List.isEmpty_iff.mp hh))]
  rw [results_nil_of_all_failed hf]
  rfl

/-- C4 witness: the amended statement at a one-detector concrete input. -/
theorem C4_all_failed_amended_witness :
    ensembleDetect [(DetectorOutcome.failure "madmom crashed", 1)] =
      Except.error (EnsembleError.runtimeError "All detectors failed")
    ∧ (∀ s, EnsembleError.runtimeError "All detectors failed" ≠
        EnsembleError.algorithmError s)
    ∧ (∀ s, EnsembleError.runtimeError "All detectors failed" ≠
        EnsembleError.valueError s) :=
  C4_all_failed_amended [(DetectorOutcome.failure "madmom crashed", 1)]
    (by decide) (by decide)

/-- C5: for two or more successful (TempoMap, weight) pairs,
`_combine_results` equals the spec's reduction: sort by weight descending,
then fold left-to-right with the highest-weight map as accumulator,
`relativeWeight = weight / (runningTotal + weight)`, merging with weight
`1 - relativeWeight` and accumulating `runningTotal`. -/
theorem C5_combine_fold (results : List (TempoMap × ℚ))
    (h : 2 ≤ results.length) :
    combine_results results = combineResultsSpec results := by
  unfold combine_results combineResultsSpec
  rw [if_neg (by omega : ¬ results.length = 1)]
  cases hs : List.insertionSort weightDesc results with
  | nil => rfl
  | cons hd tl =>
      obtain ⟨m0, w0⟩ := hd
      exact combineFold_eq_foldl tl m0 w0

/-- C5 witness: both reductions evaluated and equal on a concrete
two-estimator result list. -/
theorem C5_combine_fold_witness :
    2 ≤ ([(TempoMap.mk [⟨0, 1, 1⟩] 120 none none none none, 1),
      (TempoMap.mk [⟨1, 1, 1⟩] 100 none none none none, 3/5)] :
        List (TempoMap × ℚ)).length
    ∧ combine_results [(TempoMap.mk [⟨0, 1, 1⟩] 120 none none none none, 1),
        (TempoMap.mk [⟨1, 1, 1⟩] 100 none none none none, 3/5)] =
      combineResultsSpec [(TempoMap.mk [⟨0, 1, 1⟩] 120 none none none
        none, 1), (TempoMap.mk [⟨1, 1, 1⟩] 100 none none none none, 3/5)] :=
  ⟨by decide, C5_combine_fold [(TempoMap.mk [⟨0, 1, 1⟩] 120 none none none
    none, 1), (TempoMap.mk [⟨1, 1, 1⟩] 100 none none none none, 3/5)]
    (by decide)⟩

/-- C6: if exactly one configured estimator succeeds, the reconciler
returns that estimator's TempoMap unchanged — the whole value, including
`tempo_curve`, `tempo_confidence` and `downbeats`, is returned as-is with
no merge applied. -/
theorem C6_single_survivor (pre post : List (DetectorOutcome × ℚ))
    (tm : TempoMap) (w : ℚ)
    (hpre : ∀ d ∈ pre, d.1.isSuccess = false)
    (hpost : ∀ d ∈ post, d.1.isSuccess = false) :
    ensembleDetect (pre ++ (DetectorOutcome.success tm, w) :: post) =
      Except.ok tm := by
  simp only [ensembleDetect]
  rw [if_neg (by simp : ¬ (pre ++ (DetectorOutcome.success tm, w) ::
    post).isEmpty = true)]
  rw [List.filterMap_append, results_nil_of_all_failed hpre]
  rw [List.filterMap_cons]
  show ((if (([] : List (TempoMap × ℚ)) ++ (tm, w) ::
    (post.filterMap fun d =>
      match d.1 with
      | DetectorOutcome.success tm => some (tm, d.2)
      | DetectorOutcome.failure _ => none)).isEmpty = true then _ else _) :
        Except EnsembleError TempoMap) = _
  rw [results_nil_of_all_failed hpost]
  rfl

/-- C6 witness: one failing and one succeeding estimator; the survivor's
map, with tempo curve, confidence curve and downbeats present, comes back
unchanged. -/
theorem C6_single_survivor_witness :
    ensembleDetect [(DetectorOutcome.failure "essentia failed", 4/5),
      (DetectorOutcome.success (TempoMap.mk [⟨0, 1, 1⟩] 120
        (some [120, 121]) (some [1, 9/10]) (some [0]) (some (4, 4))), 1)] =
      Except.ok (TempoMap.mk [⟨0, 1, 1⟩] 120 (some [120, 121])
        (some [1, 9/10]) (some [0]) (some (4, 4))) :=
  C6_single_survivor [(DetectorOutcome.failure "essentia failed", 4/5)] []
    (TempoMap.mk [⟨0, 1, 1⟩] 120 (some [120, 121]) (some [1, 9/10])
      (some [0]) (some (4, 4))) 1 (by decide) (by decide)
